/-
Verification of the AIS statistics engine (`tools/ais-parser.js`) against its
specification.

Conventions of the shallow embedding:
* JavaScript IEEE-754 doubles are modelled by exact real numbers (`ℝ`) for the
  transcendental geodesy functions and by exact rationals (`ℚ`) for the
  arithmetic-only statistics pipeline.  Division by zero in JS (`0/0 = NaN`,
  `x/0 = ±∞` for `x ≠ 0`) is modelled explicitly where it is reachable.
* The JS remainder operator `%` is truncation-based; every use in the source
  applies it to non-negative operands, where it agrees with the floor-based
  remainder used here.
* In-place mutation of arrays (JS `Array.prototype.sort`) is modelled by
  threading the post-call array state explicitly.
-/
import Mathlib

namespace AisParser

/-! ## Geodesy (`toRad`, `calculateBearing`, `calculateDistance`) -/

/-- Two-argument arctangent, the mathematical function computed by JS
`Math.atan2 y x`; at the origin JS returns `+0`, modelled by `0`. -/
noncomputable def atan2 (y x : ℝ) : ℝ :=
  if 0 < x then Real.arctan (y / x)
  else if x < 0 then
    if 0 ≤ y then Real.arctan (y / x) + Real.pi else Real.arctan (y / x) - Real.pi
  else
    if 0 < y then Real.pi / 2 else if y < 0 then -(Real.pi / 2) else 0

/-- JS `x % m` on non-negative operands (floor remainder agrees with the JS
truncation remainder there). -/
noncomputable def jsMod (x m : ℝ) : ℝ := x - m * ⌊x / m⌋

/-- `toRad(deg)` from the source: degrees to radians. -/
noncomputable def toRad (deg : ℝ) : ℝ := deg * (Real.pi / 180)

/-- `calculateBearing(lat1, lon1, lat2, lon2)` from the source: initial great
circle bearing via `atan2`, converted to degrees and normalised to `[0,360)`
by `(… + 360) % 360`. -/
noncomputable def calculateBearing (lat1 lon1 lat2 lon2 : ℝ) : ℝ :=
  let dLon := toRad (lon2 - lon1)
  let y := Real.sin dLon * Real.cos (toRad lat2)
  let x := Real.cos (toRad lat1) * Real.sin (toRad lat2) -
    Real.sin (toRad lat1) * Real.cos (toRad lat2) * Real.cos dLon
  jsMod ((atan2 y x * 180) / Real.pi + 360) 360

/-- `calculateDistance(lat1, lon1, lat2, lon2)` from the source: haversine
distance on a sphere of radius 6371 km, divided by 1.852 to give nautical
miles. -/
noncomputable def calculateDistance (lat1 lon1 lat2 lon2 : ℝ) : ℝ :=
  let dLat := toRad (lat2 - lat1)
  let dLon := toRad (lon2 - lon1)
  let a := Real.sin (dLat / 2) * Real.sin (dLat / 2) +
    Real.cos (toRad lat1) * Real.cos (toRad lat2) * Real.sin (dLon / 2) * Real.sin (dLon / 2)
  let c := 2 * atan2 (Real.sqrt a) (Real.sqrt (1 - a))
  6371 * c / 1.852

/-! ## Distance distribution (`calculateDistribution`) -/

/-- `DistanceDistribution` record returned by `calculateDistribution`. -/
structure Distribution where
  bins : List ℕ
  binRanges : List (ℚ × ℚ)
  min : ℚ
  max : ℚ
  count : ℕ
  deriving DecidableEq

/-- The bin index JS computes for one distance:
`Math.min(Math.floor((dist - min) / binSize), 9)`, used as an array index.
Division by zero follows IEEE doubles: `0/0` is `NaN` (the `bins[NaN]++`
increment lands on a non-index property of the array, so no bin is counted —
`none`); `x/0` for `x > 0` is `+∞`, clamped to `9` by `Math.min`.  A negative
index (`dist < min`, unreachable because `min` is the array minimum) would
likewise miss every bin. -/
def binIndex (dist mn binSize : ℚ) : Option ℕ :=
  if binSize = 0 then
    if dist = mn then none else if mn < dist then some 9 else none
  else
    let i : ℤ := ⌊(dist - mn) / binSize⌋
    if i < 0 then none else some (Min.min i.toNat 9)

/-- `calculateDistribution(distances)` from the source.  Returns the result
together with the post-call state of the argument array: JS
`Array.prototype.sort` sorts **in place**, so a non-empty argument array is
sorted ascending after the call.  The `bins` array, filled by one `++` per
distance in the source, is modelled extensionally as per-index counts of the
successful bin indices. -/
def calculateDistribution (distances : List ℚ) : Option Distribution × List ℚ :=
  if distances.length = 0 then (none, distances)
  else
    let sorted := distances.insertionSort (· ≤ ·)
    let mn := sorted.headD 0
    let mx := sorted.getLastD 0
    let range := mx - mn
    let binSize := range / 10
    let binRanges := (List.range 10).map
      (fun i : ℕ => (mn + (i : ℚ) * binSize, mn + ((i : ℚ) + 1) * binSize))
    let bins := (List.range 10).map
      (fun j => (sorted.filterMap (fun d => binIndex d mn binSize)).count j)
    (some { bins := bins, binRanges := binRanges, min := mn, max := mx, count := sorted.length },
      sorted)

/-! ## Beam width (`calculateBeamWidth`, `findPercentileRange`)

The beam-width engine is arithmetic-only, so it is embedded over `ℚ`; the JS
double index computations `Math.floor(((1-p)/2)*N)` and
`Math.ceil(((1+p)/2)*N)-1` are modelled in exact rational arithmetic (double
rounding can shift an index by one at certain `N`, e.g. `p=0.68, N=100` gives
`15/84` in doubles and `16/83` exactly; every concrete case verified below is
insensitive to this).  The circular-mean part of the source function is
real-valued (trigonometric) and is split into separate definitions
(`meanX`, `meanY`, `meanBearing`, `concentration`). -/

/-- JS `q % 360` on `ℚ`; all uses in the source apply it to non-negative
operands, where the JS truncation remainder agrees with this floor form. -/
def qmod360 (q : ℚ) : ℚ := q - 360 * ⌊q / 360⌋

/-- Window record produced by `findPercentileRange`. -/
structure PercentileRange where
  minBearing : ℚ
  maxBearing : ℚ
  beamWidth : ℚ
  centerBearing : ℚ
  percentile : ℚ
  deriving DecidableEq

/-- Top-5% analysis record (`maxDistance` field of the beam stats). -/
structure MaxDistanceStats where
  count : ℕ
  minBearing : ℚ
  maxBearing : ℚ
  spread : ℚ
  bearings : List ℚ
  avgDistance : ℚ
  deriving DecidableEq

/-- Computable part of the `calculateBeamWidth` result record. -/
structure BeamStats where
  totalCount : ℕ
  percentile68 : PercentileRange
  percentile95 : PercentileRange
  percentile99 : PercentileRange
  maxDistance : MaxDistanceStats
  deriving DecidableEq

/-- `Math.floor(((1 - percentile) / 2) * totalCount)` from the source. -/
def percentileStartIdx (percentile : ℚ) (totalCount : ℕ) : ℕ :=
  (⌊(1 - percentile) / 2 * (totalCount : ℚ)⌋).toNat

/-- `Math.ceil(((1 + percentile) / 2) * totalCount) - 1` from the source. -/
def percentileEndIdx (percentile : ℚ) (totalCount : ℕ) : ℕ :=
  (⌈(1 + percentile) / 2 * (totalCount : ℚ)⌉ - 1).toNat

/-- The rotation offsets `0, 10, 20, …, 350` of the wraparound search loop. -/
def rotationOffsets : List ℚ := (List.range 36).map (fun k : ℕ => ((10 * k : ℕ) : ℚ))

/-- One iteration of the wraparound search loop: adjust every bearing by
`offset` mod 360, re-sort, read the same fixed-position window, and return
`(range, un-rotated min, un-rotated max)`. -/
def rotationCandidate (sortedBearings : List ℚ) (startIdx endIdx : ℕ) (offset : ℚ) :
    ℚ × ℚ × ℚ :=
  let adjusted := (sortedBearings.map (fun b => qmod360 (b + offset))).insertionSort (· ≤ ·)
  let adjMin := adjusted.getD startIdx 0
  let adjMax := adjusted.getD endIdx 0
  (adjMax - adjMin, qmod360 (adjMin - offset + 360), qmod360 (adjMax - offset + 360))

/-- The full candidate set the search minimises over: the unrotated window
(the loop's initial `best…` values) followed by one candidate per offset. -/
def rotationCandidates (sortedBearings : List ℚ) (startIdx endIdx : ℕ) :
    List (ℚ × ℚ × ℚ) :=
  (sortedBearings.getD endIdx 0 - sortedBearings.getD startIdx 0,
    sortedBearings.getD startIdx 0, sortedBearings.getD endIdx 0) ::
  rotationOffsets.map (rotationCandidate sortedBearings startIdx endIdx)

/-- `findPercentileRange(percentile)` from the source (a closure over
`sortedBearings` and `totalCount`, modelled with explicit parameters).  Array
reads `sortedBearings[i]` are modelled by `getD i 0` (in range at every use).
The `for` loop over offsets carrying `bestRange/bestMin/bestMax` is modelled
as a fold over the per-offset candidates with the unrotated window as initial
accumulator. -/
def findPercentileRange (sortedBearings : List ℚ) (totalCount : ℕ) (percentile : ℚ) :
    PercentileRange :=
  let startIdx := percentileStartIdx percentile totalCount
  let endIdx := percentileEndIdx percentile totalCount
  let minBearing0 := sortedBearings.getD startIdx 0
  let maxBearing0 := sortedBearings.getD endIdx 0
  let bounds :=
    if 180 < maxBearing0 - minBearing0 then
      let best := (rotationOffsets.map (rotationCandidate sortedBearings startIdx endIdx)).foldl
        (fun best cand => if cand.1 < best.1 then cand else best)
        (maxBearing0 - minBearing0, minBearing0, maxBearing0)
      (best.2.1, best.2.2)
    else (minBearing0, maxBearing0)
  let minBearing := bounds.1
  let maxBearing := bounds.2
  let beamWidth := if minBearing < maxBearing then maxBearing - minBearing
    else 360 - minBearing + maxBearing
  let centerBearing := if minBearing < maxBearing then (minBearing + maxBearing) / 2
    else qmod360 ((minBearing + maxBearing + 360) / 2)
  { minBearing := minBearing, maxBearing := maxBearing, beamWidth := beamWidth,
    centerBearing := centerBearing, percentile := percentile }

/-- JS `Math.min(...array)` (empty spread is unreachable at the call site). -/
def listMin (l : List ℚ) : ℚ :=
  match l with
  | [] => 0
  | h :: t => t.foldl Min.min h

/-- JS `Math.max(...array)` (empty spread is unreachable at the call site). -/
def listMax (l : List ℚ) : ℚ :=
  match l with
  | [] => 0
  | h :: t => t.foldl Max.max h

/-- `Math.max(1, Math.floor(totalCount * 0.05))` from the source.  The double
product `totalCount * 0.05` has the same floor as the exact product for every
feasible array length. -/
def top5PercentCount (totalCount : ℕ) : ℕ :=
  Nat.max 1 (⌊(totalCount : ℚ) * 0.05⌋).toNat

/-- `combined.sort((a, b) => b.distance - a.distance)` from the source:
`(bearing, distance)` pairs sorted descending by distance (JS sort is stable,
as is insertion sort). -/
def sortedByDistance (bearings distances : List ℚ) : List (ℚ × ℚ) :=
  (bearings.zip distances).insertionSort (fun a b => b.2 ≤ a.2)

/-- `calculateBeamWidth(bearings, distances)` from the source, restricted to
its computable fields (the circular mean/concentration are defined
separately).  `undefined` on an empty bearing list becomes `none`. -/
def calculateBeamWidth (bearings distances : List ℚ) : Option BeamStats :=
  if bearings.length = 0 then none
  else
    let sortedBearings := bearings.insertionSort (· ≤ ·)
    let totalCount := sortedBearings.length
    let top5Percent := (sortedByDistance bearings distances).take (top5PercentCount totalCount)
    let maxDistBearings := top5Percent.map (fun item => item.1)
    some {
      totalCount := totalCount,
      percentile68 := findPercentileRange sortedBearings totalCount 0.68,
      percentile95 := findPercentileRange sortedBearings totalCount 0.95,
      percentile99 := findPercentileRange sortedBearings totalCount 0.99,
      maxDistance := {
        count := top5PercentCount totalCount,
        minBearing := listMin maxDistBearings,
        maxBearing := listMax maxDistBearings,
        spread := listMax maxDistBearings - listMin maxDistBearings,
        bearings := maxDistBearings.insertionSort (· ≤ ·),
        avgDistance := (top5Percent.map (fun item => item.2)).sum
          / (top5PercentCount totalCount : ℚ) } }

/-- `meanX` of the circular mean (source lines 94–96), real-valued. -/
noncomputable def meanX (bearings : List ℚ) : ℝ :=
  (bearings.map (fun b => Real.cos ((b : ℝ) * Real.pi / 180))).sum / (bearings.length : ℝ)

/-- `meanY` of the circular mean, real-valued. -/
noncomputable def meanY (bearings : List ℚ) : ℝ :=
  (bearings.map (fun b => Real.sin ((b : ℝ) * Real.pi / 180))).sum / (bearings.length : ℝ)

/-- `meanBearing` from the source: `atan2` of the mean vector, in `[0,360)`. -/
noncomputable def meanBearing (bearings : List ℚ) : ℝ :=
  jsMod ((atan2 (meanY bearings) (meanX bearings) * 180) / Real.pi + 360) 360

/-- `concentration` from the source: length of the mean unit vector. -/
noncomputable def concentration (bearings : List ℚ) : ℝ :=
  Real.sqrt (meanX bearings * meanX bearings + meanY bearings * meanY bearings)

/-! ## Post-filter stage (`main`, lines 462–479) -/

/-- `indices.map((i) => arr[i])` from a filter stage; `arr[i]` is modelled by
`getD` with an explicit default (every produced index is in range). -/
def selectAt {α : Type} (arr : List α) (dflt : α) (indices : List ℤ) : List α :=
  indices.map (fun i => arr.getD i.toNat dflt)

/-- One stage of the post-filter:
`const indices = ds.map((d, i) => (pred(d) ? i : -1)).filter((i) => i >= 0)`
followed by selecting those indices from the distance, bearing, and position
sequences.  (The JS callback receives `(value, index)`; `List.enum` supplies
`(index, value)`.) -/
def filterStage {α : Type} (pred : ℚ → Bool) (ds bs : List ℚ) (ps : List α) (dflt : α) :
    List ℚ × List ℚ × List α :=
  let indices := (ds.enum.map (fun p => if pred p.2 then (p.1 : ℤ) else -1)).filter
    (fun i => decide (0 ≤ i))
  (selectAt ds 0 indices, selectAt bs 0 indices, selectAt ps dflt indices)

/-- The post-filter of `main`: the minimum-distance stage (applied when
`0 < minDistance`) followed by the maximum-distance stage (applied when
`0 < maxDistance`), each re-filtering the current filtered sequences. -/
def postFilter {α : Type} (minDistance maxDistance : ℚ) (ds bs : List ℚ) (ps : List α)
    (dflt : α) : List ℚ × List ℚ × List α :=
  let afterMin :=
    if 0 < minDistance then filterStage (fun d => decide (minDistance ≤ d)) ds bs ps dflt
    else (ds, bs, ps)
  if 0 < maxDistance then
    filterStage (fun d => decide (d ≤ maxDistance)) afterMin.1 afterMin.2.1 afterMin.2.2 dflt
  else afterMin

/-! ## Bearing-sector counts (`main`, lines 552–557) -/

/-- `Math.floor(bearing / 15) * 15`, the sector key of a bearing. -/
def sectorOf (bearing : ℚ) : ℤ := ⌊bearing / 15⌋ * 15

/-- Sector counts of a bearing sequence (the JS object keyed by sector origin
is modelled by its lookup function). -/
def sectorCounts (bearings : List ℚ) : ℤ → ℕ :=
  fun s => bearings.countP (fun b => decide (sectorOf b = s))

/-- The bearing-sector counts `main` reports: recomputed from the filtered
bearing sequence only when `minDistance > 0` **and** the filtered sequence is
non-empty; otherwise the unfiltered aggregation counts are reused. -/
def reportedBearingCounts (minDistance : ℚ) (bearingCounts : ℤ → ℕ)
    (filteredBearings : List ℚ) : ℤ → ℕ :=
  if 0 < minDistance ∧ filteredBearings ≠ [] then sectorCounts filteredBearings
  else bearingCounts

/-! ## Daily aggregation (`processFile` lines 175–190, `processDirectory`
lines 213–224) -/

/-- One `DailyAggregate` bucket. -/
structure DayStats where
  dayCount : ℕ
  nightCount : ℕ
  totalCount : ℕ
  maxDistance : ℚ
  maxDistanceMMSI : Option ℕ
  deriving DecidableEq

/-- The bucket created by `if (!stats[date]) stats[date] = {…}`. -/
def emptyDayStats : DayStats :=
  { dayCount := 0, nightCount := 0, totalCount := 0, maxDistance := 0,
    maxDistanceMMSI := none }

/-- The per-record bucket update of `processFile`: `totalCount++`, then
`dayCount++` if `hour ∈ [8,20)` else `nightCount++`, then the strict
max-distance replacement. -/
def applyRecord (s : DayStats) (hour : ℕ) (distance : ℚ) (mmsi : ℕ) : DayStats :=
  let s1 := { s with totalCount := s.totalCount + 1 }
  let s2 := if 8 ≤ hour ∧ hour < 20 then { s1 with dayCount := s1.dayCount + 1 }
    else { s1 with nightCount := s1.nightCount + 1 }
  if s2.maxDistance < distance then
    { s2 with maxDistance := distance, maxDistanceMMSI := some mmsi }
  else s2

/-- One per-record update of the date-keyed map (the JS object is modelled by
its lookup function). -/
def updateStats (stats : String → Option DayStats) (date : String) (hour : ℕ)
    (distance : ℚ) (mmsi : ℕ) : String → Option DayStats :=
  fun d => if d = date then
      some (applyRecord ((stats d).getD emptyDayStats) hour distance mmsi)
    else stats d

/-- The per-date merge body of `processDirectory`: counts add, max distance
combines by strict `>` with first-seen tie-break. -/
def combineDayStats (a b : DayStats) : DayStats :=
  { dayCount := a.dayCount + b.dayCount,
    nightCount := a.nightCount + b.nightCount,
    totalCount := a.totalCount + b.totalCount,
    maxDistance := if a.maxDistance < b.maxDistance then b.maxDistance else a.maxDistance,
    maxDistanceMMSI := if a.maxDistance < b.maxDistance then b.maxDistanceMMSI
      else a.maxDistanceMMSI }

/-- Merging one file's date map into the accumulated map (dates missing on
either side are taken from the other). -/
def mergeStats (allStats fileStats : String → Option DayStats) :
    String → Option DayStats :=
  fun d => match allStats d, fileStats d with
    | none, x => x
    | some x, none => some x
    | some x, some y => some (combineDayStats x y)

/-- The day/night split invariant of a date-keyed map. -/
def dayNightInvariant (stats : String → Option DayStats) : Prop :=
  ∀ d s, stats d = some s → s.dayCount + s.nightCount = s.totalCount

/-! ## CLI front end of `main` (lines 386–460 and 620–621) -/

/-- JS `String.prototype.startsWith`, modelled on the character list (the
built-in `String.startsWith` does not reduce in the kernel). -/
def strStartsWith (s pfx : String) : Bool := pfx.data.isPrefixOf s.data

/-- The `--display[=port]` argument: bare `--display` means port 9001; with
`=`, the port is parsed (an unparsable port, JS `NaN`, is `none`). -/
def displayPort (args : List String) : Option ℕ :=
  match args.find? (fun a => strStartsWith a "--display") with
  | none => none
  | some a =>
      if a = "--display" then some 9001
      else if (a.splitOn "=").length ≥ 2 then ((a.splitOn "=").getD 1 "").toNat? else none

/-- JS truthiness of the parsed port (`0` and `NaN` are falsy). -/
def optTruthy : Option ℕ → Bool
  | none => false
  | some n => n != 0

/-- JS truthiness of the `--apikey=…` value (an absent flag or an empty value
is falsy). -/
def apiKeyTruthy (args : List String) : Bool :=
  match args.find? (fun a => strStartsWith a "--apikey=") with
  | none => false
  | some a => ((a.splitOn "=").getD 1 "") != ""

/-- The positional arguments: everything not matched by the flag filter of
line 421 (note: `--max-distance=…` is *not* filtered out there and can be
mistaken for the input path; not relevant to the claims below). -/
def filteredArgs (args : List String) : List String :=
  args.filter (fun a =>
    !(a == "--debug") && !(strStartsWith a "--display") &&
    !(strStartsWith a "--min-distance") && !(strStartsWith a "--exclude") &&
    !(strStartsWith a "--apikey"))

/-- Outcome of the front part of `main`.  The top-level invocation is
`main().catch(console.error)`: an error thrown inside `main` (for example
`fs.statSync` on a nonexistent path) rejects the promise, the rejection is
caught and printed by `console.error`, and the process then terminates
normally with exit status 0. -/
inductive MainOutcome where
  | usageExit1
  | apiKeyErrorExit1
  | caughtErrorExit0
  | runs (inputPath : String)
  deriving DecidableEq

/-- Process exit status of an outcome. -/
def MainOutcome.exitCode : MainOutcome → ℕ
  | .usageExit1 => 1
  | .apiKeyErrorExit1 => 1
  | .caughtErrorExit0 => 0
  | .runs _ => 0

/-- Whether the usage text is printed. -/
def MainOutcome.printsUsage : MainOutcome → Bool
  | .usageExit1 => true
  | _ => false

/-- Whether the run proceeds to produce statistics. -/
def MainOutcome.producesStats : MainOutcome → Bool
  | .runs _ => true
  | _ => false

/-- The argument handling and input check of `main`: empty positional list ⇒
usage + `process.exit(1)`; display without API key ⇒ error + `process.exit(1)`;
`fs.statSync` on a missing path throws (caught at top level, exit 0);
otherwise the analysis runs.  `pathExists` models the file system seen by
`statSync`. -/
def mainOutcome (args : List String) (pathExists : String → Bool) : MainOutcome :=
  if (filteredArgs args).length = 0 then .usageExit1
  else if optTruthy (displayPort args) && !(apiKeyTruthy args) then .apiKeyErrorExit1
  else
    let inputPath := (filteredArgs args).headD ""
    if pathExists inputPath then .runs inputPath else .caughtErrorExit0

/-! ## Statistics pipeline of `main` (lines 535 and 585) -/

/-- The distribution is computed first; `calculateDistribution` sorts its
argument array **in place**, so the later `calculateBeamWidth` call receives
the sorted distance array while the bearing array keeps its original order. -/
def analyzeFiltered (filteredBearings filteredDistances : List ℚ) :
    Option Distribution × Option BeamStats :=
  let distr := calculateDistribution filteredDistances
  (distr.1, calculateBeamWidth filteredBearings distr.2)

end AisParser

namespace AisParser

/-! ## Lemmas: geodesy -/

lemma atan2_zero_one : atan2 0 1 = 0 := by
  simp [atan2, Real.arctan_zero]

lemma atan2_zero_zero : atan2 0 0 = 0 := by
  simp [atan2]

lemma jsMod_self_360 : jsMod 360 360 = 0 := by
  have h : (360 : ℝ) / 360 = 1 := by norm_num
  simp [jsMod, h]

lemma calculateDistance_self (lat lon : ℝ) : calculateDistance lat lon lat lon = 0 := by
  simp [calculateDistance, toRad, atan2_zero_one, Real.sqrt_one]

lemma calculateBearing_self (lat lon : ℝ) : calculateBearing lat lon lat lon = 0 := by
  simp only [calculateBearing, sub_self]
  rw [show toRad 0 = 0 by simp [toRad]]
  rw [show Real.cos (toRad lat) * Real.sin (toRad lat) -
      Real.sin (toRad lat) * Real.cos (toRad lat) * Real.cos 0 = 0 by
    rw [Real.cos_zero]; ring]
  simp [Real.sin_zero, atan2_zero_zero, jsMod_self_360]

/-! ## Lemmas: lists and histograms -/

/-- In a `≤`-sorted list the head (default `0`) is a lower bound. -/
lemma headD_le_of_sorted {l : List ℚ} (hs : l.Sorted (· ≤ ·)) {x : ℚ} (hx : x ∈ l) :
    l.headD 0 ≤ x := by
  cases l with
  | nil => cases hx
  | cons a t =>
      rcases List.mem_cons.mp hx with h | h
      · simp [h]
      · simpa using (List.sorted_cons.mp hs).1 x h

/-- In a `≤`-sorted list the last element (default `0`) is an upper bound. -/
lemma le_getLastD_of_sorted {l : List ℚ} (hs : l.Sorted (· ≤ ·)) :
    ∀ x ∈ l, x ≤ l.getLastD 0 := by
  induction l using List.reverseRecOn with
  | nil => intro x hx; cases hx
  | append_singleton t a _ =>
      intro x hx
      have hlast : (t ++ [a]).getLastD 0 = a := List.getLastD_concat 0 a t
      rw [hlast]
      rcases List.mem_append.mp hx with h | h
      · exact (List.pairwise_append.mp hs).2.2 x h a (by simp)
      · simp at h
        subst h
        exact le_refl x

/-- Summing the indicator of one value `a < n` over `List.range n` gives `1`. -/
lemma sum_range_indicator (n a : ℕ) (h : a < n) :
    (((List.range n).map (fun j => if a = j then 1 else 0)).sum) = 1 := by
  induction n with
  | zero => omega
  | succ m ih =>
      rw [List.range_succ]
      rcases Nat.lt_or_ge a m with hm | hm
      · have hne : a ≠ m := by omega
        simp [ih hm, hne]
      · have ha : m = a := by omega
        subst ha
        have hzero : (((List.range m).map (fun j => if m = j then 1 else 0)).sum) = 0 := by
          apply List.sum_eq_zero
          intro x hx
          rcases List.mem_map.mp hx with ⟨j, hj, hxe⟩
          have : m ≠ j := by
            have := List.mem_range.mp hj
            omega
          simpa [this] using hxe.symm
        simp [hzero]

/-- If every element of `ns` is `< n`, summing per-index counts over
`List.range n` recovers the length of `ns`. -/
lemma sum_range_count (n : ℕ) (ns : List ℕ) (h : ∀ m ∈ ns, m < n) :
    (((List.range n).map (fun j => ns.count j)).sum) = ns.length := by
  induction ns with
  | nil => simp
  | cons a t ih =>
      have ha : a < n := h a (by simp)
      have ht : ∀ m ∈ t, m < n := fun m hm => h m (by simp [hm])
      have hsplit : ((List.range n).map (fun j => (a :: t).count j)) =
          (List.range n).map (fun j => t.count j + (if a = j then 1 else 0)) := by
        apply List.map_congr_left
        intro j _
        simp [List.count_cons]
      rw [hsplit]
      have hadd : ((List.range n).map (fun j => t.count j + (if a = j then 1 else 0))).sum =
          ((List.range n).map (fun j => t.count j)).sum +
          ((List.range n).map (fun j => if a = j then 1 else 0)).sum := by
        induction (List.range n) with
        | nil => simp
        | cons r rs ihr => simp [ihr]; omega
      rw [hadd, ih ht, sum_range_indicator n a ha]
      simp

/-- The head of a non-empty list (default `0`) is a member. -/
lemma headD_mem {l : List ℚ} (h : l ≠ []) : l.headD 0 ∈ l := by
  cases l with
  | nil => cases h rfl
  | cons a t => simp

/-- The last element of a non-empty list (default `0`) is a member. -/
lemma getLastD_mem {l : List ℚ} (h : l ≠ []) : l.getLastD 0 ∈ l := by
  induction l using List.reverseRecOn with
  | nil => cases h rfl
  | append_singleton t a _ =>
      rw [List.getLastD_concat]
      simp

/-- `filterMap` by an everywhere-successful function preserves length. -/
lemma length_filterMap_of_isSome {α β : Type} (f : α → Option β) (l : List α)
    (h : ∀ a ∈ l, (f a).isSome) : (l.filterMap f).length = l.length := by
  induction l with
  | nil => simp
  | cons a t ih =>
      rcases Option.isSome_iff_exists.mp (h a (by simp)) with ⟨b, hb⟩
      have ht : ∀ a ∈ t, (f a).isSome := fun x hx => h x (by simp [hx])
      simp [List.filterMap_cons, hb, ih ht]

/-! ## Lemmas: degenerate and non-degenerate histograms -/

/-- When all values coincide (`min = max`, `binSize = 0`), every bin index is
`NaN` and the successful-index list is empty. -/
lemma filterMap_binIndex_const {l : List ℚ} (c : ℚ) (h : ∀ x ∈ l, x = c) :
    l.filterMap (fun d => binIndex d c 0) = [] := by
  rw [List.filterMap_eq_nil_iff]
  intro a ha
  simp [binIndex, h a ha]

/-- When `binSize > 0` and `mn` bounds `l` below, every bin index succeeds with
a value `< 10`. -/
lemma binIndex_of_pos {mn binSize d : ℚ} (hbs : 0 < binSize) (hd : mn ≤ d) :
    ∃ j, binIndex d mn binSize = some j ∧ j < 10 := by
  have hne : binSize ≠ 0 := ne_of_gt hbs
  have hq : 0 ≤ (d - mn) / binSize := div_nonneg (by linarith) (le_of_lt hbs)
  have hfl : (0 : ℤ) ≤ ⌊(d - mn) / binSize⌋ := Int.floor_nonneg.mpr hq
  refine ⟨Min.min (⌊(d - mn) / binSize⌋).toNat 9, ?_, ?_⟩
  · simp only [binIndex, if_neg hne]
    rw [if_neg (by omega)]
  · have : Min.min (⌊(d - mn) / binSize⌋).toNat 9 ≤ 9 := min_le_right _ _
    omega

/-! ## Lemmas: beam width -/

/-- The `keep the smaller range` fold returns an element of the candidate set
(initial accumulator included) whose key is minimal among all candidates. -/
lemma foldl_keepMin_mem (l : List (ℚ × ℚ × ℚ)) (init : ℚ × ℚ × ℚ) :
    l.foldl (fun best cand => if cand.1 < best.1 then cand else best) init ∈ init :: l ∧
    ∀ c ∈ init :: l,
      (l.foldl (fun best cand => if cand.1 < best.1 then cand else best) init).1 ≤ c.1 := by
  induction l generalizing init with
  | nil => simp
  | cons c t ih =>
      simp only [List.foldl_cons]
      rcases ih (if c.1 < init.1 then c else init) with ⟨hmem, hmin⟩
      have hstep : (if c.1 < init.1 then c else init).1 ≤ init.1 ∧
          (if c.1 < init.1 then c else init).1 ≤ c.1 := by
        split
        · constructor
          · linarith [le_of_lt (by assumption : c.1 < init.1)]
          · exact le_refl _
        · constructor
          · exact le_refl _
          · linarith [not_lt.mp (by assumption : ¬ c.1 < init.1)]
      constructor
      · rcases List.mem_cons.mp hmem with h | h
        · rw [h]
          split
          · simp
          · simp
        · simp [h]
      · intro d hd
        rcases List.mem_cons.mp hd with h | h
        · subst h
          exact (hmin _ (by simp)).trans hstep.1
        · rcases List.mem_cons.mp h with h' | h'
          · subst h'
            exact (hmin _ (by simp)).trans hstep.2
          · exact hmin d (by simp [h'])

/-- `qmod360` is the identity on `[0, 360)`. -/
lemma qmod360_eq_self {q : ℚ} (h0 : 0 ≤ q) (h1 : q < 360) : qmod360 q = q := by
  have hf : ⌊q / 360⌋ = 0 := by
    rw [Int.floor_eq_zero_iff]
    constructor
    · positivity
    · rw [div_lt_one (by norm_num : (0:ℚ) < 360)] at *
      simpa using h1
  simp [qmod360, hf]

/-- `qmod360` subtracts one turn on `[360, 720)`. -/
lemma qmod360_sub_360 {q : ℚ} (h0 : 360 ≤ q) (h1 : q < 720) : qmod360 q = q - 360 := by
  have hf : ⌊q / 360⌋ = 1 := by
    rw [Int.floor_eq_iff]
    constructor
    · rw [le_div_iff (by norm_num : (0:ℚ) < 360)]
      push_cast
      linarith
    · rw [div_lt_iff (by norm_num : (0:ℚ) < 360)]
      push_cast
      linarith
  rw [qmod360, hf]
  push_cast
  ring

/-- Sorting an `a`-block followed by a `b`-block with `b ≤ a` swaps the
blocks. -/
lemma insertionSort_two_block {a b : ℚ} (hba : b ≤ a) (m n : ℕ) :
    (List.replicate m a ++ List.replicate n b).insertionSort (· ≤ ·) =
      List.replicate n b ++ List.replicate m a := by
  apply List.eq_of_perm_of_sorted
      (r := (· ≤ ·))
      ((List.perm_insertionSort _ _).trans List.perm_append_comm)
      (List.sorted_insertionSort _ _)
  rw [List.Sorted, List.pairwise_append]
  refine ⟨?_, ?_, ?_⟩
  · exact List.pairwise_replicate.mpr (Or.inr (le_refl b))
  · exact List.pairwise_replicate.mpr (Or.inr (le_refl a))
  · intro x hx y hy
    rw [List.eq_of_mem_replicate hx, List.eq_of_mem_replicate hy]
    exact hba

/-- Indexing the left block of a two-block list. -/
lemma getD_two_block_left {a b : ℚ} {m n i : ℕ} (h : i < m) :
    (List.replicate m a ++ List.replicate n b).getD i 0 = a := by
  rw [List.getD_eq_getElem?_getD,
    List.getElem?_append_left (by simpa using h), List.getElem?_replicate_of_lt h]
  rfl

/-- Indexing the right block of a two-block list. -/
lemma getD_two_block_right {a b : ℚ} {m n i : ℕ} (h1 : m ≤ i) (h2 : i < m + n) :
    (List.replicate m a ++ List.replicate n b).getD i 0 = b := by
  rw [List.getD_eq_getElem?_getD,
    List.getElem?_append_right (by simpa using h1)]
  rw [List.length_replicate, List.getElem?_replicate_of_lt (by omega)]
  rfl

/-- A two-block list with ascending block values is sorted. -/
lemma sorted_two_block {a b : ℚ} (hab : a ≤ b) (m n : ℕ) :
    (List.replicate m a ++ List.replicate n b).Sorted (· ≤ ·) := by
  rw [List.Sorted, List.pairwise_append]
  refine ⟨List.pairwise_replicate.mpr (Or.inr (le_refl a)),
    List.pairwise_replicate.mpr (Or.inr (le_refl b)), ?_⟩
  intro x hx y hy
  rw [List.eq_of_mem_replicate hx, List.eq_of_mem_replicate hy]
  exact hab

/-- The instance of the wraparound search: candidate at offset `0` (the
adjusted list coincides with the sorted input). -/
lemma rotationCandidate_inst_zero :
    rotationCandidate (List.replicate 50 (5:ℚ) ++ List.replicate 50 355) 16 83 0 =
      (350, 5, 355) := by
  have h5 : qmod360 ((5:ℚ) + 0) = 5 := by
    rw [add_zero]
    exact qmod360_eq_self (by norm_num) (by norm_num)
  have h355 : qmod360 ((355:ℚ) + 0) = 355 := by
    rw [add_zero]
    exact qmod360_eq_self (by norm_num) (by norm_num)
  simp only [rotationCandidate, List.map_append, List.map_replicate, h5, h355]
  rw [(sorted_two_block (by norm_num : (5:ℚ) ≤ 355) 50 50).insertionSort_eq]
  rw [getD_two_block_left (by norm_num : 16 < 50),
    getD_two_block_right (by norm_num : 50 ≤ 83) (by norm_num : 83 < 50 + 50)]
  rw [show (355:ℚ) - 0 + 360 = 715 by norm_num, show (5:ℚ) - 0 + 360 = 365 by norm_num]
  rw [qmod360_sub_360 (by norm_num) (by norm_num),
    qmod360_sub_360 (by norm_num) (by norm_num)]
  norm_num

/-- The instance of the wraparound search: every candidate at an offset in
`[10, 350]` has window `[offset-5, offset+5]`, range `10`, and un-rotated
bounds `(355, 5)`. -/
lemma rotationCandidate_inst_mid (off : ℚ) (h1 : 10 ≤ off) (h2 : off ≤ 350) :
    rotationCandidate (List.replicate 50 (5:ℚ) ++ List.replicate 50 355) 16 83 off =
      (10, 355, 5) := by
  have h5 : qmod360 ((5:ℚ) + off) = 5 + off :=
    qmod360_eq_self (by linarith) (by linarith)
  have h355 : qmod360 ((355:ℚ) + off) = off - 5 := by
    rw [qmod360_sub_360 (by linarith) (by linarith)]
    ring
  simp only [rotationCandidate, List.map_append, List.map_replicate, h5, h355]
  rw [insertionSort_two_block (by linarith : off - 5 ≤ 5 + off) 50 50]
  rw [getD_two_block_left (by norm_num : 16 < 50),
    getD_two_block_right (by norm_num : 50 ≤ 83) (by norm_num : 83 < 50 + 50)]
  rw [show off - 5 - off + 360 = (355:ℚ) by ring, show 5 + off - off + 360 = (365:ℚ) by ring]
  rw [qmod360_eq_self (by norm_num) (by norm_num), qmod360_sub_360 (by norm_num) (by norm_num)]
  norm_num
  ring

/-- Index computations of the 68% window at `N = 100` (exact arithmetic). -/
lemma percentileStartIdx_inst : percentileStartIdx 0.68 100 = 16 := by
  have h : (1 - (0.68:ℚ)) / 2 * (100:ℕ) = 16 := by norm_num
  rw [percentileStartIdx, h]
  norm_num
  decide

lemma percentileEndIdx_inst : percentileEndIdx 0.68 100 = 83 := by
  have h : (1 + (0.68:ℚ)) / 2 * (100:ℕ) = 84 := by norm_num
  rw [percentileEndIdx, h]
  norm_num
  decide

/-- The 68% window of 100 bearings split evenly between 355° and 5°: the raw
window spans 350° (> 180°), the rotation search finds bounds `(355°, 5°)`, and
the beam width is 10°, not 350°. -/
lemma findPercentileRange_inst :
    (findPercentileRange (List.replicate 50 (5:ℚ) ++ List.replicate 50 355) 100 0.68).beamWidth
      = 10 := by
  have hchar : ∀ c ∈ ((350:ℚ), (5:ℚ), (355:ℚ)) ::
      (rotationOffsets.map
        (rotationCandidate (List.replicate 50 (5:ℚ) ++ List.replicate 50 355) 16 83)),
      c = ((350:ℚ), (5:ℚ), (355:ℚ)) ∨ c = (10, 355, 5) := by
    intro c hc
    rcases List.mem_cons.mp hc with h | h
    · exact Or.inl h
    · rcases List.mem_map.mp h with ⟨off, hoff, rfl⟩
      rcases List.mem_map.mp hoff with ⟨k, hk, rfl⟩
      rcases Nat.eq_zero_or_pos k with hk0 | hk1
      · subst hk0
        left
        simpa using rotationCandidate_inst_zero
      · right
        have hk36 : k < 36 := List.mem_range.mp hk
        apply rotationCandidate_inst_mid
        · exact_mod_cast Nat.cast_le.mpr (by omega : (10:ℕ) ≤ 10 * k)
        · exact_mod_cast Nat.cast_le.mpr (by omega : 10 * k ≤ 350)
  have hmem10 : ((10:ℚ), (355:ℚ), (5:ℚ)) ∈ rotationOffsets.map
      (rotationCandidate (List.replicate 50 (5:ℚ) ++ List.replicate 50 355) 16 83) := by
    apply List.mem_map.mpr
    refine ⟨((10 * 1 : ℕ) : ℚ), ?_, ?_⟩
    · exact List.mem_map.mpr ⟨1, List.mem_range.mpr (by norm_num), rfl⟩
    · rw [show (((10 * 1 : ℕ) : ℚ)) = (10:ℚ) by norm_num]
      exact rotationCandidate_inst_mid 10 (by norm_num) (by norm_num)
  obtain ⟨hmem, hmin⟩ := foldl_keepMin_mem
    (rotationOffsets.map
      (rotationCandidate (List.replicate 50 (5:ℚ) ++ List.replicate 50 355) 16 83))
    (350, 5, 355)
  have hle := hmin _ (List.mem_cons_of_mem _ hmem10)
  have hbest : (rotationOffsets.map
        (rotationCandidate (List.replicate 50 (5:ℚ) ++ List.replicate 50 355) 16 83)).foldl
      (fun best cand => if cand.1 < best.1 then cand else best) (350, 5, 355)
      = ((10:ℚ), (355:ℚ), (5:ℚ)) := by
    rcases hchar _ hmem with h | h
    · exfalso
      rw [h] at hle
      norm_num at hle
    · exact h
  simp only [findPercentileRange, percentileStartIdx_inst, percentileEndIdx_inst]
  rw [getD_two_block_left (by norm_num : 16 < 50),
    getD_two_block_right (by norm_num : 50 ≤ 83) (by norm_num : 83 < 50 + 50)]
  rw [if_pos (by norm_num : (180:ℚ) < 355 - 5)]
  rw [show (355:ℚ) - 5 = 350 by norm_num]
  rw [hbest]
  norm_num

/-- The beam-width pipeline on the 355°/5° instance: the 68% beam width is
10°. -/
lemma calculateBeamWidth_inst :
    (calculateBeamWidth (List.replicate 50 (355:ℚ) ++ List.replicate 50 5)
        (List.replicate 100 1)).map (fun s => s.percentile68.beamWidth) = some 10 := by
  have hlen : ¬ (List.replicate 50 (355:ℚ) ++ List.replicate 50 5).length = 0 := by simp
  simp only [calculateBeamWidth, if_neg hlen]
  rw [insertionSort_two_block (by norm_num : (5:ℚ) ≤ 355) 50 50]
  have h100 : (List.replicate 50 (5:ℚ) ++ List.replicate 50 355).length = 100 := by simp
  rw [h100]
  simp only [Option.map_some']
  rw [findPercentileRange_inst]

/-- Relation `b.distance ≤ a.distance` used by the descending distance sort. -/
instance : IsTotal (ℚ × ℚ) (fun a b : ℚ × ℚ => b.2 ≤ a.2) :=
  ⟨fun a b => (le_total b.2 a.2)⟩

instance : IsTrans (ℚ × ℚ) (fun a b : ℚ × ℚ => b.2 ≤ a.2) :=
  ⟨fun _ _ _ hab hbc => hbc.trans hab⟩

/-- Every pair kept by `take n` from the descending-by-distance sort has a
distance at least as large as every dropped pair. -/
lemma sortedByDistance_take_drop (bearings distances : List ℚ) (n : ℕ) :
    ∀ p ∈ (sortedByDistance bearings distances).take n,
    ∀ q ∈ (sortedByDistance bearings distances).drop n, q.2 ≤ p.2 := by
  have hs : (sortedByDistance bearings distances).Pairwise (fun a b => b.2 ≤ a.2) :=
    List.sorted_insertionSort _ _
  rw [← List.take_append_drop n (sortedByDistance bearings distances),
    List.pairwise_append] at hs
  intro p hp q hq
  exact hs.2.2 p hp q hq

/-- The top-5% subset size is bounded by the sample count. -/
lemma top5PercentCount_le {N : ℕ} (hN : 1 ≤ N) : top5PercentCount N ≤ N := by
  rw [top5PercentCount]
  have h1 : (N : ℚ) * 0.05 ≤ (N : ℚ) :=
    mul_le_of_le_one_right (by positivity) (by norm_num)
  have h2 : ⌊(N : ℚ) * 0.05⌋ ≤ ⌊(N : ℚ)⌋ := Int.floor_le_floor h1
  have h3 : ⌊((N : ℕ) : ℚ)⌋ = (N : ℤ) := Int.floor_natCast _
  have h4 : (⌊(N : ℚ) * 0.05⌋).toNat ≤ N := by omega
  exact Nat.max_le.mpr ⟨hN, h4⟩

/-- Full evaluation of `calculateDistribution` on a constant list: the bin
size degenerates to `0`, every bin index is `NaN`, and all ten bins stay `0`. -/
lemma calculateDistribution_allEqual {l : List ℚ} {c : ℚ} (hne : l ≠ [])
    (hconst : ∀ x ∈ l, x = c) :
    (calculateDistribution l).1 =
      some { bins := List.replicate 10 0, binRanges := List.replicate 10 (c, c),
             min := c, max := c, count := l.length } := by
  have hlen : ¬ l.length = 0 := by simpa [List.length_eq_zero] using hne
  have hperm : List.Perm (l.insertionSort (· ≤ ·)) l := List.perm_insertionSort _ l
  have hslen : (l.insertionSort (· ≤ ·)).length = l.length := hperm.length_eq
  have hsne : l.insertionSort (· ≤ ·) ≠ [] := by
    intro hnil
    exact hlen (by rw [← hslen, hnil]; rfl)
  have hmemc : ∀ x ∈ l.insertionSort (· ≤ ·), x = c := fun x hx =>
    hconst x (hperm.mem_iff.mp hx)
  have hhead : (l.insertionSort (· ≤ ·)).headD 0 = c := hmemc _ (headD_mem hsne)
  have hlast : (l.insertionSort (· ≤ ·)).getLastD 0 = c := hmemc _ (getLastD_mem hsne)
  simp only [calculateDistribution, if_neg hlen]
  rw [hhead, hlast, sub_self, zero_div]
  rw [filterMap_binIndex_const c hmemc]
  simp only [List.count_nil, mul_zero, add_zero]
  simp [List.map_const', hslen]

/-! ## Lemmas: post filter -/

/-- The `map to index-or-(-1) then drop negatives` pattern produces exactly
the indices whose value satisfies the predicate. -/
lemma filterStage_indices_eq (pred : ℚ → Bool) (ds : List ℚ) :
    ((ds.enum.map (fun p => if pred p.2 then (p.1 : ℤ) else -1)).filter
        (fun i => decide (0 ≤ i))) =
      (ds.enum.filter (fun p => pred p.2)).map (fun p => (p.1 : ℤ)) := by
  rw [List.filter_map]
  rw [List.filter_congr (q := fun p => pred p.2) ?hq]
  case hq =>
    intro p _
    by_cases h : pred p.2 <;> simp [h]
  apply List.map_congr_left
  intro p hp
  have h := (List.mem_filter.mp hp).2
  simp [h]

/-- Selecting the surviving enum indices out of an equally long sequence is
the same as filtering the zipped sequence on the distance component. -/
lemma selectAt_enum_zip {β : Type} (pred : ℚ → Bool) (dflt : β) :
    ∀ (ds : List ℚ) (bs : List β), bs.length = ds.length →
      ((ds.enum.filter (fun p => pred p.2)).map (fun p => bs.getD p.1 dflt)) =
      ((ds.zip bs).filter (fun t => pred t.1)).map (fun t => t.2) := by
  intro ds
  induction ds with
  | nil =>
      intro bs h
      simp
  | cons d dt ih =>
      intro bs h
      cases bs with
      | nil => simp at h
      | cons b bt =>
          have h' : bt.length = dt.length := by simpa using h
          rw [List.enum_cons', List.zip_cons_cons]
          rw [List.filter_cons, List.filter_cons]
          have hcomm : (dt.enum.map (Prod.map (· + 1) id)).filter (fun p => pred p.2) =
              (dt.enum.filter (fun p => pred p.2)).map (Prod.map (· + 1) id) := by
            rw [List.filter_map]
            apply congrArg
            apply List.filter_congr
            intro p _
            rfl
          by_cases hd : pred d
          · simp only [hd, if_pos, decide_eq_true_eq]
            simp only [List.map_cons, List.getD_cons_zero]
            congr 1
            rw [hcomm, List.map_map]
            rw [show ((fun p : ℕ × ℚ => (b :: bt).getD p.1 dflt) ∘ Prod.map (· + 1) id) =
                (fun p : ℕ × ℚ => bt.getD p.1 dflt) from ?_]
            · exact ih bt h'
            · funext p
              simp [Prod.map]
          · rw [if_neg (by simpa using hd), if_neg (by simpa using hd)]
            rw [hcomm, List.map_map]
            rw [show ((fun p : ℕ × ℚ => (b :: bt).getD p.1 dflt) ∘ Prod.map (· + 1) id) =
                (fun p : ℕ × ℚ => bt.getD p.1 dflt) from ?_]
            · exact ih bt h'
            · funext p
              simp [Prod.map]

/-- `selectAt` over the produced index list, stated against the zip filter. -/
lemma selectAt_filterStage {β : Type} (pred : ℚ → Bool) (dflt : β) (ds : List ℚ)
    (bs : List β) (h : bs.length = ds.length) :
    selectAt bs dflt
      ((ds.enum.map (fun p => if pred p.2 then (p.1 : ℤ) else -1)).filter
        (fun i => decide (0 ≤ i))) =
      ((ds.zip bs).filter (fun t => pred t.1)).map (fun t => t.2) := by
  rw [filterStage_indices_eq, selectAt, List.map_map]
  rw [show ((fun i : ℤ => bs.getD i.toNat dflt) ∘ fun p : ℕ × ℚ => (p.1 : ℤ)) =
      (fun p : ℕ × ℚ => bs.getD p.1 dflt) from ?_]
  · exact selectAt_enum_zip pred dflt ds bs h
  · funext p
    simp

/-- Filtering a self-zip recovers the plain filter. -/
lemma zip_self_filter (pred : ℚ → Bool) (ds : List ℚ) :
    ((ds.zip ds).filter (fun t => pred t.1)).map (fun t => t.2) = ds.filter pred := by
  induction ds with
  | nil => simp
  | cons d dt ih =>
      rw [List.zip_cons_cons, List.filter_cons, List.filter_cons]
      by_cases hd : pred d
      · rw [if_pos (by simpa using hd), if_pos hd, List.map_cons, ih]
      · rw [if_neg (by simpa using hd), if_neg (by simpa [hd] using hd), ih]

/-- Filtering on the first component and keeping it equals filtering the
first list, for equally long lists. -/
lemma zip_filter_fst {β : Type} (pred : ℚ → Bool) :
    ∀ (ds : List ℚ) (bs : List β), bs.length = ds.length →
      ((ds.zip bs).filter (fun t => pred t.1)).map (fun t => t.1) = ds.filter pred := by
  intro ds
  induction ds with
  | nil =>
      intro bs h
      simp
  | cons d dt ih =>
      intro bs h
      cases bs with
      | nil => simp at h
      | cons b bt =>
          have h' : bt.length = dt.length := by simpa using h
          rw [List.zip_cons_cons, List.filter_cons, List.filter_cons]
          by_cases hd : pred d
          · rw [if_pos (by simpa using hd), if_pos hd, List.map_cons, ih bt h']
          · rw [if_neg (by simpa using hd), if_neg hd, ih bt h']

/-- Re-zipping the two projections of a pair list gives the list back. -/
lemma zip_map_fst_snd' {γ δ : Type} (w : List (γ × δ)) :
    (w.map (fun t => t.1)).zip (w.map (fun t => t.2)) = w := by
  induction w with
  | nil => rfl
  | cons a t ih => simp [List.zip_cons_cons, ih]

/-- Projecting the second component of a zip of equally long lists. -/
lemma zip_map_snd_eq {β : Type} :
    ∀ (ds : List ℚ) (bs : List β), bs.length = ds.length →
      (ds.zip bs).map (fun t => t.2) = bs := by
  intro ds
  induction ds with
  | nil =>
      intro bs h
      rw [List.length_nil, List.length_eq_zero] at h
      rw [h]
      rfl
  | cons d dt ih =>
      intro bs h
      cases bs with
      | nil => simp at h
      | cons b bt =>
          rw [List.zip_cons_cons, List.map_cons, ih bt (by simpa using h)]

/-- One full filter stage, described extensionally: all three outputs select
the same surviving rows of the zipped table, in order. -/
lemma filterStage_eq {α : Type} (pred : ℚ → Bool) (ds bs : List ℚ) (ps : List α)
    (dflt : α) (hb : bs.length = ds.length) (hp : ps.length = ds.length) :
    filterStage pred ds bs ps dflt =
      (ds.filter pred,
       ((ds.zip bs).filter (fun t => pred t.1)).map (fun t => t.2),
       ((ds.zip ps).filter (fun t => pred t.1)).map (fun t => t.2)) := by
  rw [filterStage]
  refine congrArg₂ _ ?_ (congrArg₂ _ ?_ ?_)
  · rw [selectAt_filterStage pred 0 ds ds rfl, zip_self_filter]
  · exact selectAt_filterStage pred 0 ds bs hb
  · exact selectAt_filterStage pred dflt ds ps hp

end AisParser

/-! ## Claim theorems -/

open AisParser

/-- **C9.** `calculateDistance` and `calculateBearing` are total Lean functions
(pure by construction); at the station point itself (`lat2 = lat1`,
`lon2 = lon1`) the distance is `0` and the bearing is the deterministic value
`0` (no failure, and in the exact-real model no NaN arises: `atan2 0 0 = 0`
matching JS `Math.atan2(0,0) = +0`). -/
theorem C9_geodesy_self_point (lat lon : ℝ) :
    calculateDistance lat lon lat lon = 0 ∧ calculateBearing lat lon lat lon = 0 :=
  ⟨calculateDistance_self lat lon, calculateBearing_self lat lon⟩

/-- **C2, counterexample.** For distances `[5,5,5]` (`min = max = 5`) the
claim "every value is counted in bin index 9" fails: the JS bin index is
`Math.floor(0/0) = NaN`, so all ten bins stay `0`; the last bin does **not**
hold the 3 values. -/
theorem C2_counterexample :
    (calculateDistribution [5, 5, 5]).1.map Distribution.bins
        = some [0, 0, 0, 0, 0, 0, 0, 0, 0, 0] ∧
    (calculateDistribution [5, 5, 5]).1.map Distribution.bins
        ≠ some [0, 0, 0, 0, 0, 0, 0, 0, 0, 3] := by
  have h := calculateDistribution_allEqual (l := [5, 5, 5]) (c := 5)
    (by decide) (by decide)
  constructor
  · rw [h]
    decide
  · rw [h]
    decide

/-- **C2, amended.** For a non-empty filtered distance sequence whose minimum
equals its maximum (all values equal), the distribution reports `min = max`
and the full count, but **no** value is counted in any bin: every one of the
ten bins is `0`, because each value's bin index is `Math.floor(0/0) = NaN`. -/
theorem C2_degenerate_distribution (l : List ℚ) (hne : l ≠ [])
    (hconst : ∀ x ∈ l, ∀ y ∈ l, x = y) :
    ∃ d, (calculateDistribution l).1 = some d ∧ d.min = d.max ∧ d.count = l.length ∧
      d.bins = List.replicate 10 0 := by
  have hc : ∀ x ∈ l, x = l.headD 0 := fun x hx => hconst x hx _ (headD_mem hne)
  exact ⟨_, calculateDistribution_allEqual hne hc, rfl, rfl, rfl⟩

/-- Witness for C2: the amended statement evaluated at `[5,5,5]`. -/
theorem C2_degenerate_distribution_witness :
    ∃ d, (calculateDistribution [5, 5, 5]).1 = some d ∧ d.min = d.max ∧ d.count = 3 ∧
      d.bins = List.replicate 10 0 := by
  have h := C2_degenerate_distribution [5, 5, 5] (by decide) (by decide)
  simpa using h

/-- **C5, counterexample.** For the non-empty filtered distance sequence
`[5,5,5]` the histogram bin counts sum to `0`, not to the sequence length `3`:
with `min = max` every bin index is `NaN` and no bin is incremented. -/
theorem C5_counterexample :
    (calculateDistribution [5, 5, 5]).1.map (fun d => d.bins.sum) = some 0 ∧
    (calculateDistribution [5, 5, 5]).1.map (fun d => d.bins.sum) ≠ some 3 := by
  have h := calculateDistribution_allEqual (l := [5, 5, 5]) (c := 5)
    (by decide) (by decide)
  constructor
  · rw [h]
    decide
  · rw [h]
    decide

/-- **C5, amended.** For every filtered distance sequence containing at least
two distinct values, the sum of the 10 histogram bin counts equals the length
of the sequence.  (When all values are equal the bins sum to `0` instead, see
the degenerate case.) -/
theorem C5_bins_sum_eq_length (l : List ℚ) (x y : ℚ) (hx : x ∈ l) (hy : y ∈ l)
    (hxy : x ≠ y) :
    ∃ d, (calculateDistribution l).1 = some d ∧ d.bins.sum = l.length := by
  have hne : l ≠ [] := List.ne_nil_of_mem hx
  have hlen : ¬ l.length = 0 := by simpa [List.length_eq_zero] using hne
  have hperm : List.Perm (l.insertionSort (· ≤ ·)) l := List.perm_insertionSort _ l
  have hsorted : (l.insertionSort (· ≤ ·)).Sorted (· ≤ ·) := List.sorted_insertionSort _ l
  have hmnle : ∀ z ∈ l.insertionSort (· ≤ ·), (l.insertionSort (· ≤ ·)).headD 0 ≤ z :=
    fun z hz => headD_le_of_sorted hsorted hz
  have hlemx : ∀ z ∈ l.insertionSort (· ≤ ·), z ≤ (l.insertionSort (· ≤ ·)).getLastD 0 :=
    fun z hz => le_getLastD_of_sorted hsorted z hz
  have hmnmx : (l.insertionSort (· ≤ ·)).headD 0 < (l.insertionSort (· ≤ ·)).getLastD 0 := by
    rcases lt_or_le ((l.insertionSort (· ≤ ·)).headD 0) ((l.insertionSort (· ≤ ·)).getLastD 0)
      with h | h
    · exact h
    · exfalso
      have hxs : x ∈ l.insertionSort (· ≤ ·) := hperm.mem_iff.mpr hx
      have hys : y ∈ l.insertionSort (· ≤ ·) := hperm.mem_iff.mpr hy
      have h1 : x = (l.insertionSort (· ≤ ·)).headD 0 :=
        le_antisymm ((hlemx x hxs).trans h) (hmnle x hxs)
      have h2 : y = (l.insertionSort (· ≤ ·)).headD 0 :=
        le_antisymm ((hlemx y hys).trans h) (hmnle y hys)
      exact hxy (h1.trans h2.symm)
  have hbs : 0 < ((l.insertionSort (· ≤ ·)).getLastD 0 - (l.insertionSort (· ≤ ·)).headD 0)
      / 10 := by
    have hd : 0 < (l.insertionSort (· ≤ ·)).getLastD 0 - (l.insertionSort (· ≤ ·)).headD 0 := by
      linarith
    positivity
  have hsome : ∀ a ∈ l.insertionSort (· ≤ ·),
      (binIndex a ((l.insertionSort (· ≤ ·)).headD 0)
        (((l.insertionSort (· ≤ ·)).getLastD 0 - (l.insertionSort (· ≤ ·)).headD 0) / 10)).isSome := by
    intro a ha
    rcases binIndex_of_pos hbs (hmnle a ha) with ⟨j, hj, _⟩
    simp only [hj, Option.isSome_some]
  have hlt : ∀ m ∈ (l.insertionSort (· ≤ ·)).filterMap
      (fun d => binIndex d ((l.insertionSort (· ≤ ·)).headD 0)
        (((l.insertionSort (· ≤ ·)).getLastD 0 - (l.insertionSort (· ≤ ·)).headD 0) / 10)),
      m < 10 := by
    intro m hm
    rcases List.mem_filterMap.mp hm with ⟨a, ha, hfa⟩
    rcases binIndex_of_pos hbs (hmnle a ha) with ⟨j, hj, hj10⟩
    rw [hj] at hfa
    injection hfa with hjm
    omega
  simp only [calculateDistribution, if_neg hlen]
  refine ⟨_, rfl, ?_⟩
  simp only
  rw [sum_range_count 10 _ hlt, length_filterMap_of_isSome _ _ hsome, hperm.length_eq]

/-- Witness for C5: the amended statement evaluated at `[1,2]`. -/
theorem C5_bins_sum_eq_length_witness :
    ∃ d, (calculateDistribution [1, 2]).1 = some d ∧ d.bins.sum = 2 := by
  have h := C5_bins_sum_eq_length [1, 2] 1 2 (by decide) (by decide) (by decide)
  simpa using h

/-- **C3, counterexample.** For `N = 30` aligned samples the top-5% subset
size computed by the code is `Math.max(1, Math.floor(30 * 0.05)) = 1`, while
the claim's formula `max(1, ⌈0.05·N⌉)` gives `2`. -/
theorem C3_counterexample :
    (calculateBeamWidth ((List.range 30).map (fun k : ℕ => (k : ℚ)))
        ((List.range 30).map (fun k : ℕ => (k : ℚ)))).map (fun s => s.maxDistance.count)
      = some 1 ∧
    Nat.max 1 (⌈(30 : ℚ) * 0.05⌉).toNat = 2 ∧ (1 : ℕ) ≠ 2 := by
  refine ⟨?_, ?_, by decide⟩
  · have hlen : ¬ ((List.range 30).map (fun k : ℕ => (k : ℚ))).length = 0 := by simp
    simp only [calculateBeamWidth, if_neg hlen, Option.map_some']
    rw [List.length_insertionSort]
    have h30 : ((List.range 30).map (fun k : ℕ => (k : ℚ))).length = 30 := by simp
    rw [h30]
    have : top5PercentCount 30 = 1 := by
      rw [top5PercentCount]
      have hfl : ⌊(30 : ℚ) * 0.05⌋ = 1 := by norm_num
      rw [show ((30 : ℕ) : ℚ) = (30 : ℚ) by norm_num, hfl]
      decide
    rw [this]
  · have hcl : ⌈(30 : ℚ) * 0.05⌉ = 2 := by
      rw [show (30 : ℚ) * 0.05 = 3 / 2 by norm_num, Int.ceil_eq_iff] <;> norm_num
    rw [hcl]
    decide

/-- **C3, amended.** For every non-empty pair of aligned bearing/distance
sequences of length `N`, the top-5%-by-distance analysis takes exactly
`max(1, ⌊0.05·N⌋)` samples (floor, not ceiling) — the pairs with the largest
distances — and computes its count, average distance, bearing spread, and
bearing list over exactly that subset. -/
theorem C3_top5_by_distance (bearings distances : List ℚ) (hne : bearings ≠ [])
    (hlen : bearings.length = distances.length) :
    ∃ s, calculateBeamWidth bearings distances = some s ∧
      s.maxDistance.count = Nat.max 1 (⌊(bearings.length : ℚ) * 0.05⌋).toNat ∧
      ((sortedByDistance bearings distances).take (top5PercentCount bearings.length)).length
        = top5PercentCount bearings.length ∧
      (∀ p ∈ (sortedByDistance bearings distances).take (top5PercentCount bearings.length),
       ∀ q ∈ (sortedByDistance bearings distances).drop (top5PercentCount bearings.length),
        q.2 ≤ p.2) ∧
      s.maxDistance.avgDistance =
        (((sortedByDistance bearings distances).take
            (top5PercentCount bearings.length)).map (fun item => item.2)).sum
          / (top5PercentCount bearings.length : ℚ) ∧
      s.maxDistance.bearings =
        (((sortedByDistance bearings distances).take
            (top5PercentCount bearings.length)).map
          (fun item => item.1)).insertionSort (· ≤ ·) ∧
      s.maxDistance.spread =
        listMax (((sortedByDistance bearings distances).take
            (top5PercentCount bearings.length)).map (fun item => item.1)) -
        listMin (((sortedByDistance bearings distances).take
            (top5PercentCount bearings.length)).map (fun item => item.1)) := by
  have hlen0 : ¬ bearings.length = 0 := by simpa [List.length_eq_zero] using hne
  have hN1 : 1 ≤ bearings.length := by omega
  have hSlen : (sortedByDistance bearings distances).length = bearings.length := by
    rw [sortedByDistance, List.length_insertionSort, List.length_zip, hlen, min_self, ← hlen]
  simp only [calculateBeamWidth, if_neg hlen0]
  rw [List.length_insertionSort]
  refine ⟨_, rfl, rfl, ?_, sortedByDistance_take_drop bearings distances _, rfl, rfl, rfl⟩
  rw [List.length_take, hSlen]
  exact Nat.min_eq_left (top5PercentCount_le hN1)

/-- Witness for C3: the amended statement evaluated at bearings `[10, 20]`,
distances `[3, 7]`. -/
theorem C3_top5_by_distance_witness :
    ∃ s, calculateBeamWidth [10, 20] [3, 7] = some s ∧
      s.maxDistance.count = Nat.max 1 (⌊(([10, 20] : List ℚ).length : ℚ) * 0.05⌋).toNat ∧
      ((sortedByDistance [10, 20] [3, 7]).take (top5PercentCount ([10, 20] : List ℚ).length)).length
        = top5PercentCount ([10, 20] : List ℚ).length ∧
      (∀ p ∈ (sortedByDistance [10, 20] [3, 7]).take (top5PercentCount ([10, 20] : List ℚ).length),
       ∀ q ∈ (sortedByDistance [10, 20] [3, 7]).drop (top5PercentCount ([10, 20] : List ℚ).length),
        q.2 ≤ p.2) ∧
      s.maxDistance.avgDistance =
        (((sortedByDistance [10, 20] [3, 7]).take
            (top5PercentCount ([10, 20] : List ℚ).length)).map (fun item => item.2)).sum
          / (top5PercentCount ([10, 20] : List ℚ).length : ℚ) ∧
      s.maxDistance.bearings =
        (((sortedByDistance [10, 20] [3, 7]).take
            (top5PercentCount ([10, 20] : List ℚ).length)).map
          (fun item => item.1)).insertionSort (· ≤ ·) ∧
      s.maxDistance.spread =
        listMax (((sortedByDistance [10, 20] [3, 7]).take
            (top5PercentCount ([10, 20] : List ℚ).length)).map (fun item => item.1)) -
        listMin (((sortedByDistance [10, 20] [3, 7]).take
            (top5PercentCount ([10, 20] : List ℚ).length)).map (fun item => item.1)) :=
  C3_top5_by_distance [10, 20] [3, 7] (by decide) (by decide)

/-- **C6.** For every percentile `p` (in particular `p ∈ {0.68, 0.95, 0.99}`):
whenever the window over the linearly sorted bearings spans more than 180°,
the reported bounds are the un-rotated bounds of a candidate of the rotation
search over offsets `0,10,…,350` (each candidate: add the offset to every
bearing mod 360, re-sort, read the same fixed-position window) whose window
span is minimal among all candidates (the unrotated window included); and for
100 bearings split evenly between 355° and 5°, the `p = 0.68` beam width is
exactly 10°, not ≈350°. -/
theorem C6_wraparound_rotation_search :
    (∀ (sortedBearings : List ℚ) (totalCount : ℕ) (p : ℚ),
      180 < sortedBearings.getD (percentileEndIdx p totalCount) 0 -
        sortedBearings.getD (percentileStartIdx p totalCount) 0 →
      ∃ best ∈ rotationCandidates sortedBearings (percentileStartIdx p totalCount)
          (percentileEndIdx p totalCount),
        (findPercentileRange sortedBearings totalCount p).minBearing = best.2.1 ∧
        (findPercentileRange sortedBearings totalCount p).maxBearing = best.2.2 ∧
        ∀ c ∈ rotationCandidates sortedBearings (percentileStartIdx p totalCount)
            (percentileEndIdx p totalCount), best.1 ≤ c.1) ∧
    (calculateBeamWidth (List.replicate 50 (355 : ℚ) ++ List.replicate 50 5)
        (List.replicate 100 1)).map (fun s => s.percentile68.beamWidth) = some 10 := by
  constructor
  · intro sb N p hgt
    simp only [List.getD_eq_getElem?_getD] at hgt
    obtain ⟨hmem, hmin⟩ := foldl_keepMin_mem
      (rotationOffsets.map
        (rotationCandidate sb (percentileStartIdx p N) (percentileEndIdx p N)))
      (sb[percentileEndIdx p N]?.getD 0 - sb[percentileStartIdx p N]?.getD 0,
        sb[percentileStartIdx p N]?.getD 0, sb[percentileEndIdx p N]?.getD 0)
    refine ⟨_, by simpa [rotationCandidates, List.getD_eq_getElem?_getD] using hmem, ?_, ?_, ?_⟩
    · simp only [findPercentileRange, List.getD_eq_getElem?_getD, if_pos hgt]
    · simp only [findPercentileRange, List.getD_eq_getElem?_getD, if_pos hgt]
    · intro c hc
      exact hmin c (by simpa [rotationCandidates, List.getD_eq_getElem?_getD] using hc)
  · exact calculateBeamWidth_inst

/-- Witness for C6: the wraparound branch taken on the 355°/5° instance. -/
theorem C6_wraparound_rotation_search_witness :
    ∃ best ∈ rotationCandidates (List.replicate 50 (5:ℚ) ++ List.replicate 50 355)
        (percentileStartIdx 0.68 100) (percentileEndIdx 0.68 100),
      (findPercentileRange (List.replicate 50 (5:ℚ) ++ List.replicate 50 355) 100
          0.68).minBearing = best.2.1 ∧
      (findPercentileRange (List.replicate 50 (5:ℚ) ++ List.replicate 50 355) 100
          0.68).maxBearing = best.2.2 ∧
      ∀ c ∈ rotationCandidates (List.replicate 50 (5:ℚ) ++ List.replicate 50 355)
          (percentileStartIdx 0.68 100) (percentileEndIdx 0.68 100), best.1 ≤ c.1 := by
  apply C6_wraparound_rotation_search.1
  rw [percentileStartIdx_inst, percentileEndIdx_inst,
    getD_two_block_left (by norm_num : 16 < 50),
    getD_two_block_right (by norm_num : 50 ≤ 83) (by norm_num : 83 < 50 + 50)]
  norm_num

/-- **C7.** For every index-aligned triple of distance/bearing/position
sequences and bounds (each disabled when ≤ 0), the post-filter retains
exactly the rows whose distance satisfies
`(minDistance ≤ 0 ∨ minDistance ≤ d) ∧ (maxDistance ≤ 0 ∨ d ≤ maxDistance)`,
preserving original relative order and selecting the same rows in all three
sequences. -/
theorem C7_post_filter {α : Type} (minDistance maxDistance : ℚ) (ds bs : List ℚ)
    (ps : List α) (dflt : α) (hb : bs.length = ds.length) (hp : ps.length = ds.length) :
    postFilter minDistance maxDistance ds bs ps dflt =
      (ds.filter (fun d => decide ((minDistance ≤ 0 ∨ minDistance ≤ d) ∧
          (maxDistance ≤ 0 ∨ d ≤ maxDistance))),
       ((ds.zip bs).filter (fun t => decide ((minDistance ≤ 0 ∨ minDistance ≤ t.1) ∧
          (maxDistance ≤ 0 ∨ t.1 ≤ maxDistance)))).map (fun t => t.2),
       ((ds.zip ps).filter (fun t => decide ((minDistance ≤ 0 ∨ minDistance ≤ t.1) ∧
          (maxDistance ≤ 0 ∨ t.1 ≤ maxDistance)))).map (fun t => t.2)) := by
  by_cases hmin : 0 < minDistance
  · by_cases hmax : 0 < maxDistance
    · -- both stages active
      have hPc : ∀ d : ℚ, (decide (d ≤ maxDistance) && decide (minDistance ≤ d)) =
          decide ((minDistance ≤ 0 ∨ minDistance ≤ d) ∧
            (maxDistance ≤ 0 ∨ d ≤ maxDistance)) := by
        intro d
        have h1 : (minDistance ≤ 0 ∨ minDistance ≤ d) ↔ minDistance ≤ d :=
          or_iff_right (not_le.mpr hmin)
        have h2 : (maxDistance ≤ 0 ∨ d ≤ maxDistance) ↔ d ≤ maxDistance :=
          or_iff_right (not_le.mpr hmax)
        simp [h1, h2, Bool.and_comm]
      simp only [postFilter, if_pos hmin, if_pos hmax]
      rw [filterStage_eq _ ds bs ps dflt hb hp]
      have hw1b : (((ds.zip bs).filter (fun t => decide (minDistance ≤ t.1))).map
            (fun t => t.2)).length =
          (ds.filter (fun d => decide (minDistance ≤ d))).length := by
        rw [List.length_map, ← zip_filter_fst _ ds bs hb, List.length_map]
      have hw1p : (((ds.zip ps).filter (fun t => decide (minDistance ≤ t.1))).map
            (fun t => t.2)).length =
          (ds.filter (fun d => decide (minDistance ≤ d))).length := by
        rw [List.length_map, ← zip_filter_fst _ ds ps hp, List.length_map]
      rw [filterStage_eq _ _ _ _ dflt hw1b hw1p]
      have hzipb : (ds.filter (fun d => decide (minDistance ≤ d))).zip
          (((ds.zip bs).filter (fun t => decide (minDistance ≤ t.1))).map (fun t => t.2)) =
          (ds.zip bs).filter (fun t => decide (minDistance ≤ t.1)) := by
        rw [← zip_filter_fst _ ds bs hb, zip_map_fst_snd']
      have hzipp : (ds.filter (fun d => decide (minDistance ≤ d))).zip
          (((ds.zip ps).filter (fun t => decide (minDistance ≤ t.1))).map (fun t => t.2)) =
          (ds.zip ps).filter (fun t => decide (minDistance ≤ t.1)) := by
        rw [← zip_filter_fst _ ds ps hp, zip_map_fst_snd']
      rw [hzipb, hzipp, List.filter_filter, List.filter_filter, List.filter_filter]
      rw [List.filter_congr (fun d _ => hPc d),
        List.filter_congr (fun (t : ℚ × ℚ) _ => hPc t.1),
        List.filter_congr (fun (t : ℚ × α) _ => hPc t.1)]
    · -- only the min stage active
      have hPc : ∀ d : ℚ, (decide (minDistance ≤ d) : Bool) =
          decide ((minDistance ≤ 0 ∨ minDistance ≤ d) ∧
            (maxDistance ≤ 0 ∨ d ≤ maxDistance)) := by
        intro d
        have h1 : (minDistance ≤ 0 ∨ minDistance ≤ d) ↔ minDistance ≤ d :=
          or_iff_right (not_le.mpr hmin)
        have h2 : maxDistance ≤ 0 := not_lt.mp hmax
        simp [h1, h2]
      simp only [postFilter, if_pos hmin, if_neg hmax]
      rw [filterStage_eq _ ds bs ps dflt hb hp]
      rw [List.filter_congr (fun d _ => hPc d),
        List.filter_congr (fun (t : ℚ × ℚ) _ => hPc t.1),
        List.filter_congr (fun (t : ℚ × α) _ => hPc t.1)]
  · by_cases hmax : 0 < maxDistance
    · -- only the max stage active
      have hPc : ∀ d : ℚ, (decide (d ≤ maxDistance) : Bool) =
          decide ((minDistance ≤ 0 ∨ minDistance ≤ d) ∧
            (maxDistance ≤ 0 ∨ d ≤ maxDistance)) := by
        intro d
        have h1 : minDistance ≤ 0 := not_lt.mp hmin
        have h2 : (maxDistance ≤ 0 ∨ d ≤ maxDistance) ↔ d ≤ maxDistance :=
          or_iff_right (not_le.mpr hmax)
        simp [h1, h2]
      simp only [postFilter, if_neg hmin, if_pos hmax]
      rw [filterStage_eq _ ds bs ps dflt hb hp]
      rw [List.filter_congr (fun d _ => hPc d),
        List.filter_congr (fun (t : ℚ × ℚ) _ => hPc t.1),
        List.filter_congr (fun (t : ℚ × α) _ => hPc t.1)]
    · -- both disabled: identity
      have hPc : ∀ d : ℚ, (true : Bool) =
          decide ((minDistance ≤ 0 ∨ minDistance ≤ d) ∧
            (maxDistance ≤ 0 ∨ d ≤ maxDistance)) := by
        intro d
        have h1 : minDistance ≤ 0 := not_lt.mp hmin
        have h2 : maxDistance ≤ 0 := not_lt.mp hmax
        simp [h1, h2]
      simp only [postFilter, if_neg hmin, if_neg hmax]
      rw [← List.filter_congr (fun d _ => hPc d),
        ← List.filter_congr (fun (t : ℚ × ℚ) _ => hPc t.1),
        ← List.filter_congr (fun (t : ℚ × α) _ => hPc t.1)]
      rw [List.filter_true, List.filter_true, List.filter_true]
      rw [zip_map_snd_eq ds bs hb, zip_map_snd_eq ds ps hp]

/-- Witness for C7: bounds `10`/`50` on distances `[5,15,30,60]` keep exactly
`[15,30]` with bearings and positions selected at the same two indices. -/
theorem C7_post_filter_witness :
    postFilter 10 50 [5, 15, 30, 60] [1, 2, 3, 4] ([100, 200, 300, 400] : List ℕ) 0 =
      ([15, 30], [2, 3], [200, 300]) := by
  rw [C7_post_filter 10 50 [5, 15, 30, 60] [1, 2, 3, 4] [100, 200, 300, 400] 0
    (by decide) (by decide)]
  decide

/-- **C8, counterexample.** With `minDistance = 50 > 0`, one unfiltered
bearing at 30° and an empty filtered bearing sequence, the reported sector-30
count is the unfiltered `1`, not the recomputed `0`: the code reuses the
unfiltered aggregation whenever the filtered sequence is empty. -/
theorem C8_counterexample :
    reportedBearingCounts 50 (sectorCounts [30]) [] 30 = 1 ∧
    sectorCounts ([] : List ℚ) 30 = 0 := by
  constructor
  · rw [reportedBearingCounts, if_neg (by simp)]
    have h30 : sectorOf 30 = 30 := by
      rw [sectorOf]
      have : ⌊(30 : ℚ) / 15⌋ = 2 := by norm_num
      rw [this]
      decide
    simp [sectorCounts, h30]
  · simp [sectorCounts]

/-- **C8, amended.** For every run with `minDistance > 0` **and a non-empty
filtered bearing sequence**, the reported bearing-sector counts are recomputed
from the filtered bearing sequence rather than reused from the unfiltered
aggregation.  (When the filter leaves no samples, the unfiltered counts are
reused.) -/
theorem C8_recomputed_from_filtered (minDistance : ℚ) (bearingCounts : ℤ → ℕ)
    (filteredBearings : List ℚ) (hmin : 0 < minDistance) (hne : filteredBearings ≠ []) :
    reportedBearingCounts minDistance bearingCounts filteredBearings =
      sectorCounts filteredBearings := by
  rw [reportedBearingCounts, if_pos ⟨hmin, hne⟩]

/-- Witness for C8: one filtered bearing at 30°. -/
theorem C8_recomputed_from_filtered_witness :
    reportedBearingCounts 10 (fun _ => 7) [30] = sectorCounts [30] :=
  C8_recomputed_from_filtered 10 (fun _ => 7) [30] (by norm_num) (by decide)

/-- **C4, counterexample.** Invoked with the single argument `data.json` on a
file system where that path does not exist, the program prints the caught
`statSync` error (not the usage text), produces no statistics, and exits with
status **0**: `main().catch(console.error)` swallows the rejection. -/
theorem C4_counterexample :
    (mainOutcome ["data.json"] (fun _ => false)).exitCode = 0 ∧
    (mainOutcome ["data.json"] (fun _ => false)).printsUsage = false ∧
    (mainOutcome ["data.json"] (fun _ => false)).producesStats = false := by
  refine ⟨?_, ?_, ?_⟩ <;> decide

/-- **C4, amended.** If the input path argument is missing, the program
prints the usage message and exits with status 1, producing no statistics.
If the given path names a nonexistent path, the `statSync` exception is
caught by the top-level `main().catch(console.error)`: an error is printed
without the usage message, no statistics are produced, and the process exits
with status 0 (not a non-zero status). -/
theorem C4_missing_or_bad_path (args : List String) (pathExists : String → Bool) :
    ((filteredArgs args).length = 0 →
      mainOutcome args pathExists = .usageExit1 ∧
      (mainOutcome args pathExists).exitCode = 1 ∧
      (mainOutcome args pathExists).producesStats = false) ∧
    ((filteredArgs args).length ≠ 0 →
      (optTruthy (displayPort args) && !(apiKeyTruthy args)) = false →
      pathExists ((filteredArgs args).headD "") = false →
      mainOutcome args pathExists = .caughtErrorExit0 ∧
      (mainOutcome args pathExists).exitCode = 0 ∧
      (mainOutcome args pathExists).printsUsage = false ∧
      (mainOutcome args pathExists).producesStats = false) := by
  constructor
  · intro h0
    rw [mainOutcome, if_pos h0]
    exact ⟨rfl, rfl, rfl⟩
  · intro h0 hdisp hpath
    rw [mainOutcome, if_neg h0]
    rw [if_neg (by rw [hdisp]; exact Bool.false_ne_true)]
    rw [if_neg (by rw [hpath]; exact Bool.false_ne_true)]
    exact ⟨rfl, rfl, rfl, rfl⟩

/-- Witness for C4: the empty argument list, and argument `data.json` on an
empty file system. -/
theorem C4_missing_or_bad_path_witness :
    (mainOutcome [] (fun _ => true) = .usageExit1 ∧
      (mainOutcome [] (fun _ => true)).exitCode = 1 ∧
      (mainOutcome [] (fun _ => true)).producesStats = false) ∧
    (mainOutcome ["data.json"] (fun _ => false) = .caughtErrorExit0 ∧
      (mainOutcome ["data.json"] (fun _ => false)).exitCode = 0 ∧
      (mainOutcome ["data.json"] (fun _ => false)).printsUsage = false ∧
      (mainOutcome ["data.json"] (fun _ => false)).producesStats = false) := by
  constructor
  · exact (C4_missing_or_bad_path [] (fun _ => true)).1 (by decide)
  · exact (C4_missing_or_bad_path ["data.json"] (fun _ => false)).2
      (by decide) (by decide) rfl

/-- `applyRecord` adds one message to the total and to exactly one of the
day/night counters. -/
lemma applyRecord_counts (s : DayStats) (hour : ℕ) (distance : ℚ) (mmsi : ℕ) :
    (applyRecord s hour distance mmsi).dayCount +
      (applyRecord s hour distance mmsi).nightCount = s.dayCount + s.nightCount + 1 ∧
    (applyRecord s hour distance mmsi).totalCount = s.totalCount + 1 := by
  rw [applyRecord]
  split_ifs <;> constructor <;> simp <;> omega

/-- **C10.** The invariant `dayCount + nightCount = totalCount` of every date
bucket is preserved by every per-record update in `processFile` and by every
per-date merge in `processDirectory`. -/
theorem C10_day_night_total :
    (∀ (stats : String → Option DayStats) (date : String) (hour : ℕ) (distance : ℚ)
        (mmsi : ℕ), dayNightInvariant stats →
      dayNightInvariant (updateStats stats date hour distance mmsi)) ∧
    (∀ a b : String → Option DayStats, dayNightInvariant a → dayNightInvariant b →
      dayNightInvariant (mergeStats a b)) := by
  constructor
  · intro stats date hour distance mmsi hinv d s h
    rw [updateStats] at h
    by_cases hd : d = date
    · rw [if_pos hd, Option.some.injEq] at h
      subst h
      obtain ⟨hcnt, htot⟩ := applyRecord_counts ((stats d).getD emptyDayStats)
        hour distance mmsi
      have hbase : ((stats d).getD emptyDayStats).dayCount +
          ((stats d).getD emptyDayStats).nightCount =
          ((stats d).getD emptyDayStats).totalCount := by
        cases hsd : stats d with
        | none => rfl
        | some s0 =>
            have := hinv d s0 hsd
            simpa [hsd] using this
      omega
    · rw [if_neg hd] at h
      exact hinv d s h
  · intro a b ha hb d s h
    rw [mergeStats] at h
    cases had : a d with
    | none =>
        rw [had] at h
        exact hb d s h
    | some x =>
        cases hbd : b d with
        | none =>
            rw [had, hbd, Option.some.injEq] at h
            subst h
            exact ha d x had
        | some y =>
            rw [had, hbd, Option.some.injEq] at h
            subst h
            have hx := ha d x had
            have hy := hb d y hbd
            rw [combineDayStats]
            simp only
            omega

/-- Witness for C10: one record folded into the empty map, and a merge of two
empty maps. -/
theorem C10_day_night_total_witness :
    dayNightInvariant (updateStats (fun _ => none) "20240101" 9 5 7) ∧
    dayNightInvariant (mergeStats (fun _ => none) (fun _ => none)) := by
  constructor
  · exact C10_day_night_total.1 (fun _ => none) "20240101" 9 5 7
      (fun _ s h => Option.noConfusion h)
  · exact C10_day_night_total.2 _ _ (fun _ s h => Option.noConfusion h)
      (fun _ s h => Option.noConfusion h)

/-- **C1 (code bug).** `calculateDistribution` sorts the filtered distance
array **in place** (JS `Array.prototype.sort`): after `main` computes the
distribution, the distance sequence reads `[1,2,3]` instead of the original
`[3,1,2]`, so the later `calculateBeamWidth` call pairs each bearing with the
distance at the sorted position instead of the distance of the same sample.
For bearings `[10,20,30]` and distances `[3,1,2]`, the pipeline reports the
top-5% bearing list `[30]`, while the index-aligned computation — bearing
`10` belongs to the farthest sample, distance `3` — reports `[10]`. -/
theorem C1_distribution_mutates_distances :
    (calculateDistribution [3, 1, 2]).2 = [1, 2, 3] ∧
    (calculateDistribution [3, 1, 2]).2 ≠ [3, 1, 2] ∧
    ((analyzeFiltered [10, 20, 30] [3, 1, 2]).2).map (fun s => s.maxDistance.bearings)
      = some [30] ∧
    (calculateBeamWidth [10, 20, 30] [3, 1, 2]).map (fun s => s.maxDistance.bearings)
      = some [10] := by
  have hmut : (calculateDistribution [3, 1, 2]).2 = ([1, 2, 3] : List ℚ) := by
    simp only [calculateDistribution]
    rw [if_neg (by decide : ¬ ([3, 1, 2] : List ℚ).length = 0)]
    decide
  have hcount : top5PercentCount ([10, 20, 30] : List ℚ).length = 1 := by
    rw [top5PercentCount]
    rw [show ((([10, 20, 30] : List ℚ).length : ℕ) : ℚ) = 3 by norm_num]
    rw [show ⌊(3 : ℚ) * 0.05⌋ = 0 by norm_num]
    decide
  refine ⟨hmut, ?_, ?_, ?_⟩
  · rw [hmut]
    decide
  · rw [show (analyzeFiltered [10, 20, 30] [3, 1, 2]).2 =
        calculateBeamWidth [10, 20, 30] (calculateDistribution [3, 1, 2]).2 from rfl,
      hmut]
    simp only [calculateBeamWidth]
    rw [if_neg (by decide : ¬ ([10, 20, 30] : List ℚ).length = 0)]
    simp only [Option.map_some']
    rw [List.length_insertionSort, hcount]
    decide
  · simp only [calculateBeamWidth]
    rw [if_neg (by decide : ¬ ([10, 20, 30] : List ℚ).length = 0)]
    simp only [Option.map_some']
    rw [List.length_insertionSort, hcount]
    decide
